import Mathlib

set_option maxRecDepth 100000

/-!
# Verification of a 1-D elementary cellular automaton engine

Shallow embedding of `src/automaton/mod.rs`: a 128-cell binary cellular
automaton over a `Vec<u8>` lattice, with Wolfram-style 8-bit rules and a
Fixed/Periodic boundary mode.  Machine integers (`u8`, `u128`, `usize`)
are modelled as `Nat` with explicit truncation (`% 256`) at the one place
an overflowing `u8` operation can occur; fallible vector indexing
(`Vec<u8>` indexing panics out of range) is modelled with `Option`.
-/

/-- The `Automaton` struct: `fields: Vec<u8>`, `rule: u8`,
`periodic_boundary: bool`.  The lattice is stored reversed: the cell of
packed-bit index `i` lives at vector position `127 - i`. -/
structure Automaton where
  fields : List Nat
  rule : Nat
  periodic_boundary : Bool
deriving DecidableEq, Repr

/-- `fn apply_rule(pattern: u8, rule: u8) -> u8 { (rule >> pattern) & 1 }`.
Faithful to the Rust code for every `pattern < 8` (the only values the
program produces from binary cells; a larger shift would panic in Rust). -/
def apply_rule (pattern rule : Nat) : Nat :=
  (rule >>> pattern) &&& 1

/-- `fn find_nth_bit(number: u128, n: usize) -> u8 { (number >> n) as u8 & 1 }`.
The `as u8` cast truncates to the low byte before masking with 1. -/
def find_nth_bit (number n : Nat) : Nat :=
  ((number >>> n) % 256) &&& 1

/-- Test helper `to_vec`: `(0..128).map(|i| find_nth_bit(number, 127 - i)).collect()`.
Position `p` of the vector holds bit `127 - p` of the packed number. -/
def to_vec (number : Nat) : List Nat :=
  (List.range 128).map fun i => find_nth_bit number (127 - i)

/-- `Automaton::new(rule, initial, periodic_boundary)`: stores the three
arguments verbatim; the Rust constructor performs no validation. -/
def Automaton.new (rule : Nat) (initial : List Nat) (periodic_boundary : Bool) :
    Automaton :=
  { fields := initial, rule := rule, periodic_boundary := periodic_boundary }

/-- `Automaton::detect_pattern(center_index)`.  Reads, in the Rust order
right / center / left:
  right  = if i == 0 { if periodic { fields[0] } else { 0 } } else { fields[127 - i + 1] }
  center = fields[127 - i]
  left   = if i == 127 { if periodic { fields[127] } else { 0 } } else { fields[127 - i - 1] }
and returns `(left << 2) | (center << 1) | right` as a `u8`.
Out-of-range indexing (a Rust panic) is `none`; the `usize` subtraction
`127 - center_index` underflows (panics) when `center_index > 127`, which
the guard in the `right` branch models. -/
def Automaton.detect_pattern (a : Automaton) (center_index : Nat) : Option Nat :=
  let rightO : Option Nat :=
    if center_index = 0 then
      if a.periodic_boundary then a.fields[0]? else some 0
    else if center_index ≤ 127 then a.fields[127 - center_index + 1]? else none
  let centerO : Option Nat := a.fields[127 - center_index]?
  let leftO : Option Nat :=
    if center_index = 127 then
      if a.periodic_boundary then a.fields[127]? else some 0
    else a.fields[127 - center_index - 1]?
  rightO.bind fun right =>
    centerO.bind fun center =>
      leftO.map fun left =>
        ((left <<< 2) ||| (center <<< 1) ||| right) % 256

/-- Loop body of `Automaton::update`: compute the pattern for position `i`
of the old lattice, apply the rule, write the new bit at vector position
`127 - i` of the next-generation buffer. -/
def update_body (a : Automaton) (new_fields : List Nat) (i : Nat) :
    Option (List Nat) :=
  (a.detect_pattern i).map fun pattern =>
    new_fields.set (127 - i) (apply_rule pattern a.rule)

/-- `Automaton::update`: `new_fields = vec![0; 128]`; for `i in 0..128`
write `apply_rule(detect_pattern(i), rule)` into `new_fields[127 - i]`
(all patterns are read from the old `self.fields`); finally
`self.fields = new_fields`.  `rule` and `periodic_boundary` are untouched. -/
def Automaton.update (a : Automaton) : Option Automaton :=
  ((List.range 128).foldlM (update_body a) (List.replicate 128 0)).map
    fun new_fields => { a with fields := new_fields }

/-- `Automaton::to_list`: returns a copy of the lattice vector. -/
def Automaton.to_list (a : Automaton) : List Nat :=
  a.fields

/-- Modelled from the spec: the source has no routine that re-packs an
exported sequence into the wide integer (its tests only unpack, via
`to_vec`); the spec requires the two representations to be
interconvertible, with position 0 of the sequence the most significant
bit.  Folding most-significant-first realises exactly that reading. -/
def repack (seq : List Nat) : Nat :=
  seq.foldl (fun acc b => acc * 2 + b) 0

/-! ## Characterisations of `detect_pattern` -/

/-- At an interior index `1 ≤ i ≤ 126`, `detect_pattern` reads exactly the
vector positions `126 - i` (cell `i+1`), `127 - i` (cell `i`) and
`128 - i` (cell `i-1`), in either boundary mode. -/
lemma detect_pattern_interior (a : Automaton) (hlen : a.fields.length = 128)
    {i : Nat} (h1 : 1 ≤ i) (h2 : i ≤ 126) :
    a.detect_pattern i =
      some (((a.fields.getD (126 - i) 0 <<< 2) |||
        (a.fields.getD (127 - i) 0 <<< 1) |||
        a.fields.getD (128 - i) 0) % 256) := by
  have e1 : 127 - i + 1 = 128 - i := by omega
  have e2 : 127 - i - 1 = 126 - i := by omega
  have hr : 128 - i < a.fields.length := by omega
  have hc : 127 - i < a.fields.length := by omega
  have hl : 126 - i < a.fields.length := by omega
  unfold Automaton.detect_pattern
  rw [if_neg (by omega : ¬ i = 0), if_pos (by omega : i ≤ 127),
    if_neg (by omega : ¬ i = 127), e1, e2]
  rw [List.getElem?_eq_getElem hr, List.getElem?_eq_getElem hc,
    List.getElem?_eq_getElem hl, List.getD_eq_getElem _ _ hr,
    List.getD_eq_getElem _ _ hc, List.getD_eq_getElem _ _ hl]
  rfl

/-- At index 0, `detect_pattern` reads center = vector position 127
(cell 0), left = position 126 (cell 1), and right = 0 under Fixed mode or
vector position 0 (cell 127) under Periodic mode. -/
lemma detect_pattern_zero (a : Automaton) (hlen : a.fields.length = 128) :
    a.detect_pattern 0 =
      some (((a.fields.getD 126 0 <<< 2) |||
        (a.fields.getD 127 0 <<< 1) |||
        (if a.periodic_boundary then a.fields.getD 0 0 else 0)) % 256) := by
  have h0 : 0 < a.fields.length := by omega
  have hc : 127 < a.fields.length := by omega
  have hl : 126 < a.fields.length := by omega
  unfold Automaton.detect_pattern
  simp only [Nat.sub_zero, show (127 : Nat) - 1 = 126 from rfl,
    List.getElem?_eq_getElem h0, List.getElem?_eq_getElem hc,
    List.getElem?_eq_getElem hl, List.getD_eq_getElem _ _ h0,
    List.getD_eq_getElem _ _ hc, List.getD_eq_getElem _ _ hl]
  cases hpb : a.periodic_boundary <;> simp

/-- At index 127, `detect_pattern` reads center = vector position 0
(cell 127), right = position 1 (cell 126), and left = 0 under Fixed mode
or vector position 127 (cell 0) under Periodic mode. -/
lemma detect_pattern_last (a : Automaton) (hlen : a.fields.length = 128) :
    a.detect_pattern 127 =
      some ((((if a.periodic_boundary then a.fields.getD 127 0 else 0) <<< 2) |||
        (a.fields.getD 0 0 <<< 1) |||
        a.fields.getD 1 0) % 256) := by
  have h0 : 0 < a.fields.length := by omega
  have h1 : 1 < a.fields.length := by omega
  have hll : 127 < a.fields.length := by omega
  unfold Automaton.detect_pattern
  simp only [show (127 : Nat) - 127 = 0 from rfl,
    show (127 : Nat) - 127 + 1 = 1 from rfl,
    List.getElem?_eq_getElem h0, List.getElem?_eq_getElem h1,
    List.getElem?_eq_getElem hll, List.getD_eq_getElem _ _ h0,
    List.getD_eq_getElem _ _ h1, List.getD_eq_getElem _ _ hll]
  cases hpb : a.periodic_boundary <;> simp

/-- Every value read from a binary lattice with `getD` at an in-range
position is 0 or 1. -/
lemma getD_lt_two (l : List Nat) (hbin : ∀ x ∈ l, x < 2) {k : Nat}
    (hk : k < l.length) : l.getD k 0 < 2 := by
  rw [List.getD_eq_getElem _ _ hk]
  exact hbin _ (List.getElem_mem hk)

/-- On a 128-cell lattice, `detect_pattern` succeeds at every index below 128. -/
lemma detect_pattern_isSome (a : Automaton) (hlen : a.fields.length = 128)
    {i : Nat} (hi : i < 128) : (a.detect_pattern i).isSome := by
  rcases Nat.lt_or_ge i 1 with h | h
  · have hz : i = 0 := by omega
    subst hz
    rw [detect_pattern_zero a hlen]; rfl
  · rcases Nat.lt_or_ge i 127 with h' | h'
    · rw [detect_pattern_interior a hlen h (by omega)]; rfl
    · have hz : i = 127 := by omega
      subst hz
      rw [detect_pattern_last a hlen]; rfl

/-! ## Characterisation of the update loop -/

/-- The update loop over any duplicate-free list of positions below 128:
it succeeds when every pattern extraction succeeds, preserves the buffer
length, and the final buffer holds, at each position `j`, the rule output
for lattice index `127 - j` when some loop iteration wrote it, and the
initial buffer's value otherwise.  Every pattern is extracted with
`a.detect_pattern`, i.e. from the old lattice `a.fields`. -/
lemma foldlM_update_body_spec (a : Automaton) :
    ∀ (l : List Nat) (acc : List Nat), acc.length = 128 →
      (∀ i ∈ l, (a.detect_pattern i).isSome) →
      (∀ i ∈ l, i < 128) → l.Nodup →
      ∃ res, l.foldlM (update_body a) acc = some res ∧ res.length = 128 ∧
        ∀ j, j < 128 →
          res[j]? = if 127 - j ∈ l then
              (a.detect_pattern (127 - j)).map (fun p => apply_rule p a.rule)
            else acc[j]? := by
  intro l
  induction l with
  | nil =>
      intro acc hacc _ _ _
      exact ⟨acc, rfl, hacc, fun j _ => by simp⟩
  | cons i t ih =>
      intro acc hacc hsome hlt hnd
      obtain ⟨p, hp⟩ := Option.isSome_iff_exists.mp (hsome i (List.mem_cons_self i t))
      have hstep : update_body a acc i = some (acc.set (127 - i) (apply_rule p a.rule)) := by
        simp [update_body, hp]
      have hi : i < 128 := hlt i (List.mem_cons_self i t)
      obtain ⟨res, hres, hreslen, hresget⟩ :=
        ih (acc.set (127 - i) (apply_rule p a.rule))
          (by simpa using hacc)
          (fun x hx => hsome x (List.mem_cons_of_mem i hx))
          (fun x hx => hlt x (List.mem_cons_of_mem i hx))
          (List.Nodup.of_cons hnd)
      refine ⟨res, ?_, hreslen, ?_⟩
      · rw [List.foldlM_cons, hstep]
        simpa using hres
      · intro j hj
        rw [hresget j hj]
        by_cases hjt : 127 - j ∈ t
        · rw [if_pos hjt, if_pos (List.mem_cons_of_mem i hjt)]
        · by_cases hji : 127 - j = i
          · have hj' : j = 127 - i := by omega
            subst hj'
            rw [if_neg hjt, if_pos (by simp [hji]),
              List.getElem?_set_self (by omega), hji, hp]
            rfl
          · have hne : 127 - i ≠ j := by omega
            rw [if_neg hjt, if_neg (by simp [hji, hjt]),
              List.getElem?_set_ne hne]

/-- `Automaton.update` on a 128-cell lattice: it succeeds, keeps `rule`
and `periodic_boundary`, and replaces the lattice by the 128-cell buffer
whose position `j` holds the rule output for the pattern of lattice index
`127 - j`, extracted from the pre-step lattice. -/
lemma update_spec (a : Automaton) (hlen : a.fields.length = 128) :
    ∃ nf, a.update = some { a with fields := nf } ∧ nf.length = 128 ∧
      ∀ j, j < 128 →
        nf[j]? = (a.detect_pattern (127 - j)).map (fun p => apply_rule p a.rule) := by
  obtain ⟨res, hres, hreslen, hresget⟩ :=
    foldlM_update_body_spec a (List.range 128) (List.replicate 128 0)
      (List.length_replicate 128 0)
      (fun i hi => detect_pattern_isSome a hlen (List.mem_range.mp hi))
      (fun i hi => List.mem_range.mp hi)
      (List.nodup_range 128)
  refine ⟨res, ?_, hreslen, ?_⟩
  · unfold Automaton.update
    rw [hres]
    rfl
  · intro j hj
    rw [hresget j hj, if_pos (List.mem_range.mpr (by omega))]

/-! ## Arithmetic helpers for 3-bit patterns -/

/-- A pattern assembled from binary components is below 256, so the `u8`
truncation is the identity. -/
lemma pattern_mod (l c r : Nat) (hl : l < 2) (hc : c < 2) (hr : r < 2) :
    ((l <<< 2) ||| (c <<< 1) ||| r) % 256 = (l <<< 2) ||| (c <<< 1) ||| r := by
  interval_cases l <;> interval_cases c <;> interval_cases r <;> rfl

/-- Bit 0 of an assembled pattern is the right component. -/
lemma pattern_right (l c r : Nat) (hl : l < 2) (hc : c < 2) (hr : r < 2) :
    (((l <<< 2) ||| (c <<< 1) ||| r) % 256) &&& 1 = r := by
  interval_cases l <;> interval_cases c <;> interval_cases r <;> rfl

/-- Bit 2 of an assembled pattern is the left component. -/
lemma pattern_left (l c r : Nat) (hl : l < 2) (hc : c < 2) (hr : r < 2) :
    ((((l <<< 2) ||| (c <<< 1) ||| r) % 256) >>> 2) &&& 1 = l := by
  interval_cases l <;> interval_cases c <;> interval_cases r <;> rfl

/-! ## Failure and frame lemmas for the update loop -/

/-- If pattern extraction fails at any position of the loop, the whole
update loop fails (the loop body's success never depends on the buffer). -/
lemma foldlM_update_body_none (a : Automaton) :
    ∀ (l : List Nat) (acc : List Nat),
      (∃ i ∈ l, a.detect_pattern i = none) →
      l.foldlM (update_body a) acc = none := by
  intro l
  induction l with
  | nil => intro acc h; simp at h
  | cons j t ih =>
      intro acc h
      rw [List.foldlM_cons]
      cases hj : a.detect_pattern j with
      | none => simp [update_body, hj]
      | some p =>
          have hstep : update_body a acc j =
              some (acc.set (127 - j) (apply_rule p a.rule)) := by
            simp [update_body, hj]
          rw [hstep]
          obtain ⟨i, hi, hnone⟩ := h
          rcases List.mem_cons.mp hi with hij | hit
          · rw [hij] at hnone; rw [hnone] at hj; cases hj
          · exact ih _ ⟨i, hit, hnone⟩

/-- The update loop never changes the length of the buffer it returns. -/
lemma foldlM_update_body_length (a : Automaton) :
    ∀ (l : List Nat) (acc res : List Nat),
      l.foldlM (update_body a) acc = some res → res.length = acc.length := by
  intro l
  induction l with
  | nil =>
      intro acc res h
      simp only [List.foldlM_nil] at h
      cases h; rfl
  | cons j t ih =>
      intro acc res h
      rw [List.foldlM_cons] at h
      cases hj : a.detect_pattern j with
      | none =>
          rw [show update_body a acc j = none from by simp [update_body, hj]] at h
          simp at h
      | some p =>
          rw [show update_body a acc j =
              some (acc.set (127 - j) (apply_rule p a.rule)) from by
            simp [update_body, hj]] at h
          simp only [Option.bind_eq_bind, Option.some_bind] at h
          have := ih _ _ h
          simpa using this

/-! ## Claim theorems -/

/-- C1: for every state whose lattice has exactly 128 binary cells, one
`update` succeeds and produces the lattice whose cell at each index
`i < 128` (vector position `127 - i`) equals the rule applied to the
neighborhood of `i` extracted from the pre-step lattice (`a.detect_pattern`,
not the new buffer): a simultaneous, whole-lattice replacement. -/
theorem update_is_simultaneous (a : Automaton)
    (hlen : a.fields.length = 128) (hbin : ∀ x ∈ a.fields, x < 2) :
    ∃ a', a.update = some a' ∧ a'.fields.length = 128 ∧
      ∀ i, i < 128 → ∃ p, a.detect_pattern i = some p ∧
        a'.fields[127 - i]? = some (apply_rule p a.rule) := by
  obtain ⟨nf, hup, hlen', hget⟩ := update_spec a hlen
  refine ⟨_, hup, hlen', ?_⟩
  intro i hi
  obtain ⟨p, hp⟩ := Option.isSome_iff_exists.mp (detect_pattern_isSome a hlen hi)
  refine ⟨p, hp, ?_⟩
  have hj := hget (127 - i) (by omega)
  rw [show 127 - (127 - i) = i from by omega, hp] at hj
  exact hj

theorem update_is_simultaneous_witness :
    (to_vec 0b101).length = 128 ∧ (∀ x ∈ to_vec 0b101, x < 2) ∧
    (∃ a', (Automaton.new 30 (to_vec 0b101) false).update = some a' ∧
      a'.fields.length = 128 ∧
      ∀ i, i < 128 → ∃ p,
        (Automaton.new 30 (to_vec 0b101) false).detect_pattern i = some p ∧
        a'.fields[127 - i]? =
          some (apply_rule p (Automaton.new 30 (to_vec 0b101) false).rule)) :=
  ⟨by decide, by decide, update_is_simultaneous _ (by decide) (by decide)⟩

/-- C2 (counterexample): construction does not fail on an invalid initial
lattice; `Automaton::new` accepts the empty lattice (length 0 ≠ 128) and
stores it verbatim — there is no `InvalidInput` error path. -/
theorem new_accepts_invalid_lattice :
    (Automaton.new 30 ([] : List Nat) false).fields = ([] : List Nat) ∧
    ([] : List Nat).length ≠ 128 ∧
    (Automaton.new 30 (List.replicate 128 7) false).fields =
      List.replicate 128 7 ∧ ¬ (∀ x ∈ List.replicate 128 7, x < 2) :=
  ⟨rfl, by decide, rfl, by decide⟩

/-- C2 (amended): construction performs no validation at all: for every
rule, every initial vector (of any length, with any element values) and
either boundary mode, `Automaton::new` succeeds and stores its three
arguments verbatim. -/
theorem new_stores_arguments_verbatim (rule : Nat) (initial : List Nat)
    (pb : Bool) :
    (Automaton.new rule initial pb).fields = initial ∧
    (Automaton.new rule initial pb).rule = rule ∧
    (Automaton.new rule initial pb).periodic_boundary = pb :=
  ⟨rfl, rfl, rfl⟩

/-- C3 (counterexample): under Periodic mode with rule 16, starting from
the lattice with only index 0 set, one step does not produce the lattice
with only index 4 set. -/
theorem periodic_rule16_not_index4 :
    (Automaton.new 16 (to_vec 0b1) true).update ≠
      some (Automaton.new 16 (to_vec (2 ^ 4)) true) := by
  decide

/-- C3 (amended): under Periodic mode with rule 16, starting from the
lattice with only index 0 set, one step produces the lattice with only
index 127 set — the 128-bit literal `2 ^ 127` that the source's
`test_periodic_boundary` asserts (the set bit moves from index 0 to index
127 through the wraparound path). -/
theorem periodic_rule16_wraparound :
    (Automaton.new 16 (to_vec 0b1) true).update =
      some (Automaton.new 16 (to_vec (2 ^ 127)) true) := by
  decide

/-- C6: with rule 30, Fixed boundaries and initial packed value `0b101`,
three successive steps produce exactly the packed values `0b1101`,
`0b11001` and `0b110111`, bit for bit over all 128 positions. -/
theorem rule30_canonical_trace :
    (Automaton.new 30 (to_vec 0b101) false).update =
      some (Automaton.new 30 (to_vec 0b1101) false) ∧
    (Automaton.new 30 (to_vec 0b1101) false).update =
      some (Automaton.new 30 (to_vec 0b11001) false) ∧
    (Automaton.new 30 (to_vec 0b11001) false).update =
      some (Automaton.new 30 (to_vec 0b110111) false) :=
  ⟨by decide, by decide, by decide⟩

/-- C4: at every interior index `1 ≤ i ≤ 126`, on a 128-cell binary
lattice, the neighborhood is `(L[i+1] <<< 2) ||| (L[i] <<< 1) ||| L[i-1]`
(cell index `j` is vector position `127 - j`), and it depends only on
those three cells: any lattice `b` — in either boundary mode — agreeing
with `a` on them yields the same pattern. -/
theorem interior_neighborhood_three_cells (a b : Automaton) (i : Nat)
    (ha : a.fields.length = 128) (hab : ∀ x ∈ a.fields, x < 2)
    (hb : b.fields.length = 128) (hbb : ∀ x ∈ b.fields, x < 2)
    (h1 : 1 ≤ i) (h2 : i ≤ 126) :
    a.detect_pattern i =
      some ((a.fields.getD (126 - i) 0 <<< 2) |||
        (a.fields.getD (127 - i) 0 <<< 1) ||| a.fields.getD (128 - i) 0) ∧
    (a.fields.getD (126 - i) 0 = b.fields.getD (126 - i) 0 →
     a.fields.getD (127 - i) 0 = b.fields.getD (127 - i) 0 →
     a.fields.getD (128 - i) 0 = b.fields.getD (128 - i) 0 →
     a.detect_pattern i = b.detect_pattern i) := by
  have hl := getD_lt_two a.fields hab (show 126 - i < a.fields.length from by omega)
  have hc := getD_lt_two a.fields hab (show 127 - i < a.fields.length from by omega)
  have hr := getD_lt_two a.fields hab (show 128 - i < a.fields.length from by omega)
  constructor
  · rw [detect_pattern_interior a ha h1 h2, pattern_mod _ _ _ hl hc hr]
  · intro e1 e2 e3
    rw [detect_pattern_interior a ha h1 h2, detect_pattern_interior b hb h1 h2,
      e1, e2, e3]

theorem interior_neighborhood_three_cells_witness :
    ((to_vec 0b101).length = 128 ∧ (∀ x ∈ to_vec 0b101, x < 2) ∧
     (to_vec (0b101 + 2 ^ 77)).length = 128 ∧
     (∀ x ∈ to_vec (0b101 + 2 ^ 77), x < 2) ∧ 1 ≤ 1 ∧ 1 ≤ 126) ∧
    ((Automaton.new 30 (to_vec 0b101) false).detect_pattern 1 =
      some (((Automaton.new 30 (to_vec 0b101) false).fields.getD 125 0 <<< 2) |||
        ((Automaton.new 30 (to_vec 0b101) false).fields.getD 126 0 <<< 1) |||
        (Automaton.new 30 (to_vec 0b101) false).fields.getD 127 0) ∧
     ((Automaton.new 30 (to_vec 0b101) false).fields.getD 125 0 =
        (Automaton.new 77 (to_vec (0b101 + 2 ^ 77)) true).fields.getD 125 0 →
      (Automaton.new 30 (to_vec 0b101) false).fields.getD 126 0 =
        (Automaton.new 77 (to_vec (0b101 + 2 ^ 77)) true).fields.getD 126 0 →
      (Automaton.new 30 (to_vec 0b101) false).fields.getD 127 0 =
        (Automaton.new 77 (to_vec (0b101 + 2 ^ 77)) true).fields.getD 127 0 →
      (Automaton.new 30 (to_vec 0b101) false).detect_pattern 1 =
        (Automaton.new 77 (to_vec (0b101 + 2 ^ 77)) true).detect_pattern 1)) :=
  ⟨⟨by decide, by decide, by decide, by decide, by decide, by decide⟩,
    interior_neighborhood_three_cells _ _ 1 (by decide) (by decide) (by decide)
      (by decide) (by decide) (by decide)⟩

/-- C5: on a 128-cell binary lattice, under Fixed mode the neighborhood at
index 0 has right component 0 and the one at index 127 has left component
0; under Periodic mode the right component at index 0 is cell 127 (vector
position 0) and the left component at index 127 is cell 0 (vector
position 127), both read from the same pre-step lattice `a.fields`. -/
theorem boundary_components (a : Automaton)
    (hlen : a.fields.length = 128) (hbin : ∀ x ∈ a.fields, x < 2) :
    (a.periodic_boundary = false →
      (∃ p, a.detect_pattern 0 = some p ∧ p &&& 1 = 0) ∧
      (∃ p, a.detect_pattern 127 = some p ∧ (p >>> 2) &&& 1 = 0)) ∧
    (a.periodic_boundary = true →
      (∃ p, a.detect_pattern 0 = some p ∧ p &&& 1 = a.fields.getD 0 0) ∧
      (∃ p, a.detect_pattern 127 = some p ∧
        (p >>> 2) &&& 1 = a.fields.getD 127 0)) := by
  have h0 := getD_lt_two a.fields hbin (show 0 < a.fields.length from by omega)
  have h1 := getD_lt_two a.fields hbin (show 1 < a.fields.length from by omega)
  have h126 := getD_lt_two a.fields hbin (show 126 < a.fields.length from by omega)
  have h127 := getD_lt_two a.fields hbin (show 127 < a.fields.length from by omega)
  constructor
  · intro hpb
    constructor
    · have hz := detect_pattern_zero a hlen
      rw [hpb, if_neg Bool.false_ne_true] at hz
      exact ⟨_, hz, pattern_right _ _ _ h126 h127 (by omega)⟩
    · have hz := detect_pattern_last a hlen
      rw [hpb, if_neg Bool.false_ne_true] at hz
      exact ⟨_, hz, pattern_left _ _ _ (by omega) h0 h1⟩
  · intro hpb
    constructor
    · have hz := detect_pattern_zero a hlen
      rw [hpb, if_pos rfl] at hz
      exact ⟨_, hz, pattern_right _ _ _ h126 h127 h0⟩
    · have hz := detect_pattern_last a hlen
      rw [hpb, if_pos rfl] at hz
      exact ⟨_, hz, pattern_left _ _ _ h127 h0 h1⟩

theorem boundary_components_witness :
    ((to_vec 0b1).length = 128 ∧ (∀ x ∈ to_vec 0b1, x < 2)) ∧
    (((Automaton.new 30 (to_vec 0b1) true).periodic_boundary = false →
       (∃ p, (Automaton.new 30 (to_vec 0b1) true).detect_pattern 0 = some p ∧
         p &&& 1 = 0) ∧
       (∃ p, (Automaton.new 30 (to_vec 0b1) true).detect_pattern 127 = some p ∧
         (p >>> 2) &&& 1 = 0)) ∧
     ((Automaton.new 30 (to_vec 0b1) true).periodic_boundary = true →
       (∃ p, (Automaton.new 30 (to_vec 0b1) true).detect_pattern 0 = some p ∧
         p &&& 1 = (Automaton.new 30 (to_vec 0b1) true).fields.getD 0 0) ∧
       (∃ p, (Automaton.new 30 (to_vec 0b1) true).detect_pattern 127 = some p ∧
         (p >>> 2) &&& 1 =
           (Automaton.new 30 (to_vec 0b1) true).fields.getD 127 0))) :=
  ⟨⟨by decide, by decide⟩, boundary_components _ (by decide) (by decide)⟩

/-! ## Packing / unpacking -/

/-- `find_nth_bit` extracts bit `n` of the packed number. -/
lemma find_nth_bit_eq (V n : Nat) : find_nth_bit V n = V / 2 ^ n % 2 := by
  unfold find_nth_bit
  rw [Nat.and_one_is_mod, Nat.mod_mod_of_dvd _ (by norm_num),
    Nat.shiftRight_eq_div_pow]

/-- Folding a most-significant-first bit listing accumulates the low `n`
bits of the packed number. -/
lemma foldl_pack (V : Nat) : ∀ (n : Nat) (acc : Nat),
    ((List.range n).map (fun i => V / 2 ^ (n - 1 - i) % 2)).foldl
      (fun acc b => acc * 2 + b) acc = acc * 2 ^ n + V % 2 ^ n := by
  intro n
  induction n with
  | zero => intro acc; simp [Nat.mod_one]
  | succ m ih =>
      intro acc
      rw [List.range_succ_eq_map]
      simp only [List.map_cons, List.map_map, List.foldl_cons]
      have hcomp : ((fun i => V / 2 ^ (m + 1 - 1 - i) % 2) ∘ Nat.succ) =
          (fun i => V / 2 ^ (m - 1 - i) % 2) := by
        funext i
        have he : m + 1 - 1 - Nat.succ i = m - 1 - i := by omega
        rw [Function.comp_apply, he]
      rw [hcomp, ih]
      have e0 : m + 1 - 1 - 0 = m := by omega
      rw [e0, Nat.mod_pow_succ, pow_succ]
      ring

/-- C7 ("spec-modelled" re-pack): exporting the lattice built from a
128-bit packed value `V` with `to_list` and re-packing it
most-significant-first yields `V` again, and position `p` of the exported
sequence is bit `127 - p` of `V` (position 0 = bit 127, position 127 =
bit 0). -/
theorem sequence_packed_roundtrip (r : Nat) (pb : Bool) (V : Nat)
    (hV : V < 2 ^ 128) :
    repack ((Automaton.new r (to_vec V) pb).to_list) = V ∧
    ∀ p, p < 128 →
      ((Automaton.new r (to_vec V) pb).to_list)[p]? =
        some (V / 2 ^ (127 - p) % 2) := by
  have hto : (Automaton.new r (to_vec V) pb).to_list = to_vec V := rfl
  rw [hto]
  constructor
  · have hmap : to_vec V =
        (List.range 128).map (fun i => V / 2 ^ (128 - 1 - i) % 2) := by
      unfold to_vec
      refine List.map_congr_left ?_
      intro i _
      rw [find_nth_bit_eq]
    rw [repack, hmap, foldl_pack V 128 0, Nat.zero_mul, Nat.zero_add,
      Nat.mod_eq_of_lt hV]
  · intro p hp
    unfold to_vec
    rw [List.getElem?_map, List.getElem?_range hp]
    simp [find_nth_bit_eq]

theorem sequence_packed_roundtrip_witness :
    (0b101 : Nat) < 2 ^ 128 ∧
    (repack ((Automaton.new 30 (to_vec 0b101) false).to_list) = 0b101 ∧
     ∀ p, p < 128 →
       ((Automaton.new 30 (to_vec 0b101) false).to_list)[p]? =
         some (0b101 / 2 ^ (127 - p) % 2)) :=
  ⟨by norm_num, sequence_packed_roundtrip 30 false 0b101 (by norm_num)⟩

/-- C8: on a validly constructed state (128 binary cells, any rule byte,
either boundary mode) `update` and `to_list` are total: every
neighborhood extraction performed during one step succeeds (all lattice
accesses are in range), the step returns a result, and `to_list` returns
the full 128-cell sequence. -/
theorem step_and_export_total (a : Automaton)
    (hlen : a.fields.length = 128) (hbin : ∀ x ∈ a.fields, x < 2) :
    a.update.isSome ∧ (∀ i, i < 128 → (a.detect_pattern i).isSome) ∧
    a.to_list = a.fields ∧ a.to_list.length = 128 := by
  obtain ⟨nf, hup, _, _⟩ := update_spec a hlen
  exact ⟨by rw [hup]; rfl, fun i hi => detect_pattern_isSome a hlen hi, rfl,
    by simpa [Automaton.to_list] using hlen⟩

theorem step_and_export_total_witness :
    (to_vec 0b101).length = 128 ∧ (∀ x ∈ to_vec 0b101, x < 2) ∧
    ((Automaton.new 255 (to_vec 0b101) true).update.isSome ∧
     (∀ i, i < 128 →
       ((Automaton.new 255 (to_vec 0b101) true).detect_pattern i).isSome) ∧
     (Automaton.new 255 (to_vec 0b101) true).to_list =
       (Automaton.new 255 (to_vec 0b101) true).fields ∧
     (Automaton.new 255 (to_vec 0b101) true).to_list.length = 128) :=
  ⟨by decide, by decide, step_and_export_total _ (by decide) (by decide)⟩

/-- C9: whenever one `update` call returns a new state, only the lattice
field differs: `rule` and `periodic_boundary` are unchanged, and the
lattice has been replaced by a freshly built complete 128-cell buffer. -/
theorem update_frame (a a' : Automaton) (h : a.update = some a') :
    a'.rule = a.rule ∧ a'.periodic_boundary = a.periodic_boundary ∧
    a'.fields.length = 128 := by
  unfold Automaton.update at h
  cases hres : (List.range 128).foldlM (update_body a) (List.replicate 128 0) with
  | none => rw [hres] at h; simp at h
  | some nf =>
      rw [hres] at h
      have hnf := foldlM_update_body_length a _ _ _ hres
      simp only [Option.map_some', Option.some.injEq] at h
      rw [← h]
      exact ⟨rfl, rfl, by simpa using hnf⟩

theorem update_frame_witness :
    (Automaton.new 0 (to_vec 0) false).update =
      some (Automaton.new 0 (to_vec 0) false) ∧
    ((Automaton.new 0 (to_vec 0) false).rule =
       (Automaton.new 0 (to_vec 0) false).rule ∧
     (Automaton.new 0 (to_vec 0) false).periodic_boundary =
       (Automaton.new 0 (to_vec 0) false).periodic_boundary ∧
     (Automaton.new 0 (to_vec 0) false).fields.length = 128) :=
  ⟨by decide, update_frame _ _ (by decide)⟩

/-- C10: construction performs no length or value check — any initial
vector with fewer than 128 elements is accepted verbatim (any rule,
either boundary mode) — but the first `update` call reads vector position
127 of the old lattice, which is out of range, so the very first
neighborhood extraction fails and the step returns no next generation. -/
theorem short_lattice_first_step_fails (rule : Nat) (pb : Bool)
    (initial : List Nat) (hshort : initial.length < 128) :
    Automaton.new rule initial pb =
      { fields := initial, rule := rule, periodic_boundary := pb } ∧
    initial[127]? = none ∧
    (Automaton.new rule initial pb).detect_pattern 0 = none ∧
    (Automaton.new rule initial pb).update = none := by
  have h127 : initial[127]? = none := List.getElem?_eq_none (by omega)
  have hdp : (Automaton.new rule initial pb).detect_pattern 0 = none := by
    unfold Automaton.detect_pattern
    cases pb with
    | false => simp [Automaton.new, h127]
    | true =>
        cases initial with
        | nil => simp [Automaton.new]
        | cons x t => simp [Automaton.new, h127]
  refine ⟨rfl, h127, hdp, ?_⟩
  unfold Automaton.update
  rw [foldlM_update_body_none _ _ _ ⟨0, List.mem_range.mpr (by omega), hdp⟩]
  rfl

theorem short_lattice_first_step_fails_witness :
    (List.replicate 5 1).length < 128 ∧
    (Automaton.new 30 (List.replicate 5 1) true =
      { fields := List.replicate 5 1, rule := 30, periodic_boundary := true } ∧
     (List.replicate 5 1 : List Nat)[127]? = none ∧
     (Automaton.new 30 (List.replicate 5 1) true).detect_pattern 0 = none ∧
     (Automaton.new 30 (List.replicate 5 1) true).update = none) :=
  ⟨by decide, short_lattice_first_step_fails 30 true _ (by decide)⟩
